import Mathlib

/-
Shallow embedding of the NeuroSonus analysis pipeline (src/app.py).

The app loads an audio buffer (librosa.load, duration=30), extracts three
biomarkers (average positive pitch candidate, mean per-frame zero-crossing
rate, mean spectral centroid), renders a peak-referenced dB mel spectrogram,
and classifies risk with an additive threshold rule.

Python floats that can be NaN (np.mean over an empty selection) are modelled
by `PFloat`; all other numerics are exact rationals. Library primitives that
the code calls (librosa / numpy) are embedded at their documented semantics
where a claim depends on them; the logarithm inside power_to_db is abstracted
by an arbitrary monotone function, which is the only property the dB-scaling
invariant uses.
-/

/-- Result of a Python float expression that is either NaN (e.g. np.mean of
an empty array) or an ordinary numeric value, modelled as a rational. -/
inductive PFloat where
  | nan : PFloat
  | val : ℚ → PFloat
deriving DecidableEq

/-- Python comparison `p < c` on a possibly-NaN float: any comparison with
NaN is false. -/
def pfLt (p : PFloat) (c : ℚ) : Bool :=
  match p with
  | PFloat.nan => false
  | PFloat.val x => decide (x < c)

/-- Python comparison `p > c` on a possibly-NaN float: any comparison with
NaN is false. -/
def pfGt (p : PFloat) (c : ℚ) : Bool :=
  match p with
  | PFloat.nan => false
  | PFloat.val x => decide (c < x)

/-- Mean of a list of rationals, mirroring np.mean on a nonempty array
(sum divided by length). -/
def meanQ (l : List ℚ) : ℚ := l.sum / (l.length : ℚ)

/-- Population variance of a list, mirroring np.var; used to state the
statistic the spec claims for the roughness score. -/
def varQ (l : List ℚ) : ℚ := meanQ (l.map (fun x => (x - meanQ l) ^ 2))

/-- Maximum entry of a list, mirroring np.max on a (flattened) nonempty
array; 0 on the empty list, a case the pipeline never produces. -/
def listMax : List ℚ → ℚ
  | [] => 0
  | [a] => a
  | a :: b :: r => max a (listMax (b :: r))

/-- Sign bit of a sample with librosa's zero_pos=True convention: zeros
count as non-negative. -/
def signbitQ (x : ℚ) : Bool := decide (x < 0)

/-- Number of adjacent sign changes inside one frame
(librosa.zero_crossings). -/
def crossings : List ℚ → Nat
  | [] => 0
  | [_] => 0
  | a :: b :: r => (if signbitQ a ≠ signbitQ b then 1 else 0) + crossings (b :: r)

/-- Zero-crossing rate of one frame: fraction of sign changes, normalized by
the frame length. -/
def frame_zcr (f : List ℚ) : ℚ := (crossings f : ℚ) / (f.length : ℚ)

/-- Per-frame ZCR sequence, as returned by
librosa.feature.zero_crossing_rate over the framed signal. -/
def zero_crossing_rate (frames : List (List ℚ)) : List ℚ := frames.map frame_zcr

/-- Source line 35: zcr = np.mean(librosa.feature.zero_crossing_rate(y)),
the mean of the per-frame ZCR sequence. -/
def zcr (frames : List (List ℚ)) : ℚ := meanQ (zero_crossing_rate frames)

/-- Spec's claimed roughness statistic for comparison: the variance of the
per-frame ZCR sequence multiplied by a tremor scale factor c. -/
def spec_roughness (c : ℚ) (frames : List (List ℚ)) : ℚ :=
  c * varQ (zero_crossing_rate frames)

/-- Source line 32: avg_pitch = np.mean(pitches[pitches > 0]); np.mean of an
empty selection is NaN, not 0. -/
def avg_pitch (pitches : List ℚ) : PFloat :=
  let valid := pitches.filter (fun x => decide (0 < x))
  if valid.isEmpty then PFloat.nan else PFloat.val (meanQ valid)

/-- Three-way status printed by the dashboard (source lines 96 to 112). -/
inductive RiskStatus where
  | low : RiskStatus
  | moderate : RiskStatus
  | high : RiskStatus
deriving DecidableEq

/-- Source lines 89 to 94: risk_score starts at 0, gains 30 when the pitch
comparison `pitch < 100 or pitch > 300` holds (false for NaN), and gains 40
when `zcr > 0.1`. -/
def risk_score (p : PFloat) (z : ℚ) : Nat :=
  (if pfLt p 100 || pfGt p 300 then 30 else 0) + (if (1 : ℚ) / 10 < z then 40 else 0)

/-- Source lines 96 to 112: score below 30 shows Low Risk, below 70 shows
Moderate Risk, otherwise High Risk. -/
def risk_status (p : PFloat) (z : ℚ) : RiskStatus :=
  if risk_score p z < 30 then RiskStatus.low
  else if risk_score p z < 70 then RiskStatus.moderate
  else RiskStatus.high

/-- Pitch values for which the code adds no pitch penalty: NaN (both
comparisons false) or a value in the closed band [100, 300]. -/
def pitchInBand : PFloat → Prop
  | PFloat.nan => True
  | PFloat.val x => 100 ≤ x ∧ x ≤ 300

instance instDecPitchInBand : (p : PFloat) → Decidable (pitchInBand p)
  | PFloat.nan => Decidable.isTrue trivial
  | PFloat.val x => inferInstanceAs (Decidable (100 ≤ x ∧ x ≤ 300))

/-- librosa.power_to_db default amplitude floor amin = 1e-10. -/
def aminQ : ℚ := 1 / 10 ^ 10

/-- librosa.power_to_db default dynamic-range clamp top_db = 80. -/
def topDbQ : ℚ := 80

/-- One cell of power_to_db before clamping:
10 log10(max(amin, s)) - 10 log10(max(amin, |ref|)), with the monotone map
x ↦ 10 log10 x abstracted as f. -/
def dbCell (f : ℚ → ℚ) (ref s : ℚ) : ℚ := f (max aminQ s) - f (max aminQ |ref|)

/-- Source lines 71 to 73: S_dB = librosa.power_to_db(S, ref=np.max) over the
flattened mel-power matrix S: convert each cell relative to the matrix
maximum, then clamp from below at (max of the dB values) - top_db. -/
def S_dB (f : ℚ → ℚ) (S : List ℚ) : List ℚ :=
  (S.map (dbCell f (listMax S))).map
    (fun v => max v (listMax (S.map (dbCell f (listMax S))) - topDbQ))

/-- Source lines 25 to 27: librosa.load(audio_file, duration=30) keeps only
the first 30 seconds of samples, i.e. the first 30 * sr samples. -/
def load_capped (orig : List ℚ) (sr : Nat) : List ℚ := orig.take (30 * sr)

/-- Biomarkers plus risk status produced by one analysis run
(source lines 23 to 40 and 89 to 112). -/
structure AnalysisResult where
  pitch : PFloat
  zcrVal : ℚ
  centroid : ℚ
  status : RiskStatus
deriving DecidableEq

/-- One full deterministic pipeline run on the library-extracted pitch
candidates, ZCR frames, and spectral-centroid values. -/
def pipeline_run (pitches : List ℚ) (frames : List (List ℚ)) (scs : List ℚ) :
    AnalysisResult :=
  let p := avg_pitch pitches
  let z := zcr frames
  AnalysisResult.mk p z (meanQ scs) (risk_status p z)

/-- What the page shows after an upload: the dashboard on success, or the
error banner from the except-branch. -/
inductive Rendered where
  | dashboard : AnalysisResult → Rendered
  | failure : String → Rendered
deriving DecidableEq

/-- Source lines 52 and 114 to 115: the whole analysis is wrapped in
try/except Exception, and a failure is rendered as
st.error with the message "Error during analysis: " followed by the cause. -/
def run_guarded (outcome : Except String AnalysisResult) : Rendered :=
  match outcome with
  | Except.ok r => Rendered.dashboard r
  | Except.error e => Rendered.failure ("Error during analysis: " ++ e)

/-! Helper lemmas about list maxima, means, and frame statistics. -/

theorem mem_le_listMax : ∀ {l : List ℚ} {x : ℚ}, x ∈ l → x ≤ listMax l
  | [], x, h => absurd h (List.not_mem_nil x)
  | [a], x, h => by
      rcases List.mem_singleton.mp h with rfl
      exact le_refl x
  | a :: b :: r, x, h => by
      rcases List.mem_cons.mp h with rfl | ht
      · exact le_max_left _ _
      · exact le_trans (mem_le_listMax ht) (le_max_right _ _)

theorem listMax_mem : ∀ (l : List ℚ), l ≠ [] → listMax l ∈ l
  | [], h => absurd rfl h
  | [a], _ => by simp [listMax]
  | a :: b :: r, _ => by
      rcases max_choice a (listMax (b :: r)) with h | h
      · rw [listMax, h]
        exact List.mem_cons_self a (b :: r)
      · rw [listMax, h]
        exact List.mem_cons_of_mem a (listMax_mem (b :: r) (List.cons_ne_nil b r))

theorem meanQ_nonneg (l : List ℚ) (h : ∀ x ∈ l, 0 ≤ x) : 0 ≤ meanQ l :=
  div_nonneg (List.sum_nonneg h) (Nat.cast_nonneg _)

theorem sum_le_len : ∀ (l : List ℚ), (∀ x ∈ l, x ≤ 1) → l.sum ≤ (l.length : ℚ)
  | [], _ => by simp
  | a :: t, h => by
      have ih := sum_le_len t (fun x hx => h x (List.mem_cons_of_mem a hx))
      have ha := h a (List.mem_cons_self a t)
      simp only [List.sum_cons, List.length_cons]
      push_cast
      linarith

theorem meanQ_le_one (l : List ℚ) (hne : l ≠ []) (h : ∀ x ∈ l, x ≤ 1) :
    meanQ l ≤ 1 := by
  have hlen : (0 : ℚ) < (l.length : ℚ) :=
    Nat.cast_pos.mpr (List.length_pos.mpr hne)
  exact (div_le_one hlen).mpr (sum_le_len l h)

theorem meanQ_of_zeros (l : List ℚ) (h : ∀ x ∈ l, x = 0) : meanQ l = 0 := by
  rw [meanQ, List.sum_eq_zero h, zero_div]

theorem crossings_le_length : ∀ f : List ℚ, crossings f ≤ f.length
  | [] => Nat.le_refl 0
  | [a] => by simp [crossings]
  | a :: b :: r => by
      have ih := crossings_le_length (b :: r)
      have hif : (if signbitQ a ≠ signbitQ b then 1 else 0) ≤ 1 := by
        split <;> omega
      simp only [crossings, List.length_cons] at ih ⊢
      omega

theorem crossings_of_zeros : ∀ f : List ℚ, (∀ x ∈ f, x = 0) → crossings f = 0
  | [], _ => rfl
  | [_], _ => rfl
  | a :: b :: r, h => by
      have ha : a = 0 := h a (List.mem_cons_self a (b :: r))
      have hb : b = 0 :=
        h b (List.mem_cons_of_mem a (List.mem_cons_self b r))
      have ih := crossings_of_zeros (b :: r)
        (fun x hx => h x (List.mem_cons_of_mem a hx))
      rw [hb] at ih
      simp [crossings, ha, hb, signbitQ, ih]

theorem frame_zcr_nonneg (f : List ℚ) : 0 ≤ frame_zcr f :=
  div_nonneg (Nat.cast_nonneg _) (Nat.cast_nonneg _)

theorem frame_zcr_le_one : ∀ f : List ℚ, frame_zcr f ≤ 1
  | [] => by norm_num [frame_zcr, crossings]
  | a :: t => by
      have hlen : (0 : ℚ) < ((a :: t).length : ℚ) := by
        exact_mod_cast Nat.succ_pos t.length
      exact (div_le_one hlen).mpr (Nat.cast_le.mpr (crossings_le_length (a :: t)))

theorem frame_zcr_of_zeros (f : List ℚ) (h : ∀ x ∈ f, x = 0) : frame_zcr f = 0 := by
  rw [frame_zcr, crossings_of_zeros f h]
  simp

/-! Characterization of the risk classifier. -/

theorem risk_score_eq (p : PFloat) (z : ℚ) :
    risk_score p z =
      (if pitchInBand p then 0 else 30) + (if (1 : ℚ) / 10 < z then 40 else 0) := by
  cases p with
  | nan => simp [risk_score, pfLt, pfGt, pitchInBand]
  | val x =>
      by_cases hb : 100 ≤ x ∧ x ≤ 300
      · have h1 : ¬ x < 100 := not_lt.mpr hb.1
        have h2 : ¬ 300 < x := not_lt.mpr hb.2
        simp [risk_score, pfLt, pfGt, pitchInBand, h1, h2, hb]
      · have hb2 : x < 100 ∨ 300 < x := by
          rcases not_and_or.mp hb with h | h
          · exact Or.inl (not_le.mp h)
          · exact Or.inr (not_le.mp h)
        have ht : (pfLt (PFloat.val x) 100 || pfGt (PFloat.val x) 300) = true := by
          simpa [pfLt, pfGt] using hb2
        rw [risk_score, ht]
        have hnb : ¬ pitchInBand (PFloat.val x) := hb
        simp [hnb]

theorem risk_status_eq (p : PFloat) (z : ℚ) :
    risk_status p z =
      if pitchInBand p then
        (if (1 : ℚ) / 10 < z then RiskStatus.moderate else RiskStatus.low)
      else
        (if (1 : ℚ) / 10 < z then RiskStatus.high else RiskStatus.moderate) := by
  by_cases hb : pitchInBand p
  · by_cases hz : (1 : ℚ) / 10 < z
    · simp only [risk_status, risk_score_eq, if_pos hb, if_pos hz]
      decide
    · simp only [risk_status, risk_score_eq, if_pos hb, if_neg hz]
      decide
  · by_cases hz : (1 : ℚ) / 10 < z
    · simp only [risk_status, risk_score_eq, if_neg hb, if_pos hz]
      decide
    · simp only [risk_status, risk_score_eq, if_neg hb, if_neg hz]
      decide

/-! Claims about the risk classifier. -/

/-- Claim C1, counterexample: the spec says an out-of-range average pitch is
classified Inconclusive with no further threshold comparison, but at pitch 50
(outside every stated range) the code still compares the ZCR against 0.1 and
produces two different statuses for two ZCR values, so the classification
does not stop at a pitch gate. -/
theorem C1_cex :
    risk_status (PFloat.val 50) (1 / 20) = RiskStatus.moderate ∧
    risk_status (PFloat.val 50) (1 / 5) = RiskStatus.high := by
  have hb : ¬ pitchInBand (PFloat.val 50) := by
    intro h
    exact absurd h.1 (by norm_num)
  constructor
  · rw [risk_status_eq, if_neg hb, if_neg (show ¬ (1 : ℚ) / 10 < 1 / 20 by norm_num)]
  · rw [risk_status_eq, if_neg hb, if_pos (show (1 : ℚ) / 10 < 1 / 5 by norm_num)]

/-- Claim C1, amended: when the average pitch is outside (100, 300), the
classifier adds 30 to the risk score and still performs the ZCR threshold
comparison: the status is Moderate Risk when zcr ≤ 0.1 and High Risk when
zcr > 0.1; no Inconclusive category exists. -/
theorem C1_amended (p : ℚ) (hp : p < 100 ∨ 300 < p) (z : ℚ) :
    (z ≤ 1 / 10 → risk_status (PFloat.val p) z = RiskStatus.moderate) ∧
    (1 / 10 < z → risk_status (PFloat.val p) z = RiskStatus.high) := by
  have hb : ¬ pitchInBand (PFloat.val p) := by
    intro hband
    rcases hp with h | h
    · exact absurd hband.1 (not_le.mpr h)
    · exact absurd hband.2 (not_le.mpr h)
  constructor
  · intro hz
    rw [risk_status_eq, if_neg hb, if_neg (not_lt.mpr hz)]
  · intro hz
    rw [risk_status_eq, if_neg hb, if_pos hz]

/-- Claim C1, witness for the amended theorem at pitch 50 and zcr 0.2. -/
theorem C1_w : risk_status (PFloat.val 50) (1 / 5) = RiskStatus.high :=
  (C1_amended 50 (Or.inl (by norm_num)) (1 / 5)).2 (by norm_num)

/-- Claim C3, counterexample: for a run whose pitch (150) passes the stated
validity gate and whose roughness value (0.2) strictly exceeds the code's
threshold 0.1, the spec predicts the top category (Elevated), but the code
yields Moderate Risk, not the top category High Risk. -/
theorem C3_cex :
    risk_status (PFloat.val 150) (1 / 5) = RiskStatus.moderate ∧
    RiskStatus.moderate ≠ RiskStatus.high := by
  constructor
  · rw [risk_status_eq,
      if_pos (show pitchInBand (PFloat.val 150) from ⟨by norm_num, by norm_num⟩),
      if_pos (show (1 : ℚ) / 10 < 1 / 5 by norm_num)]
  · decide

/-- Claim C3, amended: for pitch within the no-penalty band [100, 300] the
ZCR is compared to 0.1 with strict inequality: strictly greater yields
Moderate Risk, and a value exactly equal to 0.1 (or below) yields Low Risk. -/
theorem C3_amended (p : ℚ) (h1 : 100 ≤ p) (h2 : p ≤ 300) (z : ℚ) :
    (1 / 10 < z → risk_status (PFloat.val p) z = RiskStatus.moderate) ∧
    (z ≤ 1 / 10 → risk_status (PFloat.val p) z = RiskStatus.low) := by
  have hb : pitchInBand (PFloat.val p) := ⟨h1, h2⟩
  constructor
  · intro hz
    rw [risk_status_eq, if_pos hb, if_pos hz]
  · intro hz
    rw [risk_status_eq, if_pos hb, if_neg (not_lt.mpr hz)]

/-- Claim C3, witness: at pitch 150 a ZCR exactly equal to the threshold 0.1
classifies as Low Risk (strict comparison). -/
theorem C3_w : risk_status (PFloat.val 150) (1 / 10) = RiskStatus.low :=
  (C3_amended 150 (by norm_num) (by norm_num) (1 / 10)).2 (le_refl _)

/-- Claim C10: the risk score only takes the values 0, 30, 40, 70, and the
status is Low Risk exactly when the pitch is NaN or in [100, 300] and
zcr ≤ 0.1, High Risk exactly when the pitch is a value outside [100, 300]
and zcr > 0.1, and Moderate Risk in every other case. -/
theorem C10_thm (p : PFloat) (z : ℚ) :
    (risk_score p z = 0 ∨ risk_score p z = 30 ∨ risk_score p z = 40 ∨
      risk_score p z = 70) ∧
    (risk_status p z = RiskStatus.low ↔ (pitchInBand p ∧ z ≤ 1 / 10)) ∧
    (risk_status p z = RiskStatus.high ↔ (¬ pitchInBand p ∧ 1 / 10 < z)) ∧
    (risk_status p z = RiskStatus.moderate ↔
      (¬ (pitchInBand p ∧ z ≤ 1 / 10) ∧ ¬ (¬ pitchInBand p ∧ 1 / 10 < z))) := by
  by_cases hb : pitchInBand p
  · by_cases hz : (1 : ℚ) / 10 < z
    · simp only [risk_score_eq, risk_status_eq, if_pos hb, if_pos hz]
      refine ⟨by norm_num, ?_, ?_, ?_⟩
      · exact iff_of_false (by decide) (fun h => absurd hz (not_lt.mpr h.2))
      · exact iff_of_false (by decide) (fun h => h.1 hb)
      · exact iff_of_true trivial
          ⟨fun h => absurd hz (not_lt.mpr h.2), fun h => h.1 hb⟩
    · simp only [risk_score_eq, risk_status_eq, if_pos hb, if_neg hz]
      refine ⟨by norm_num, ?_, ?_, ?_⟩
      · exact iff_of_true trivial ⟨hb, not_lt.mp hz⟩
      · exact iff_of_false (by decide) (fun h => h.1 hb)
      · exact iff_of_false (by decide) (fun h => h.1 ⟨hb, not_lt.mp hz⟩)
  · by_cases hz : (1 : ℚ) / 10 < z
    · simp only [risk_score_eq, risk_status_eq, if_neg hb, if_pos hz]
      refine ⟨by norm_num, ?_, ?_, ?_⟩
      · exact iff_of_false (by decide) (fun h => hb h.1)
      · exact iff_of_true trivial ⟨hb, hz⟩
      · exact iff_of_false (by decide) (fun h => h.2 ⟨hb, hz⟩)
    · simp only [risk_score_eq, risk_status_eq, if_neg hb, if_neg hz]
      refine ⟨by norm_num, ?_, ?_, ?_⟩
      · exact iff_of_false (by decide) (fun h => hb h.1)
      · exact iff_of_false (by decide) (fun h => absurd h.2 hz)
      · exact iff_of_true trivial ⟨fun h => hb h.1, fun h => hz h.2⟩

/-! Claims about the feature extraction and the whole pipeline. -/

/-- Claim C2, counterexample: on a silent buffer every pitch candidate is 0,
the selection pitches[pitches > 0] is empty, and np.mean of it is NaN, so
the average pitch is not the claimed value 0. -/
theorem C2_cex : avg_pitch [0, 0] ≠ PFloat.val 0 := by
  have h : avg_pitch [0, 0] = PFloat.nan := by
    norm_num [avg_pitch, List.filter]
  rw [h]
  intro hcon
  exact PFloat.noConfusion hcon

/-- Claim C2, amended: for a zero-amplitude buffer the mean ZCR (the
roughness value) is 0 with no division by zero and no error, the average
pitch is NaN because the valid-pitch selection is empty, and the classifier
shows Low Risk (the code has no Inconclusive category). -/
theorem C2_amended (pitches : List ℚ) (hp : ∀ x ∈ pitches, x = 0)
    (frames : List (List ℚ)) (hne : frames ≠ [])
    (hz : ∀ f ∈ frames, ∀ x ∈ f, x = 0) :
    avg_pitch pitches = PFloat.nan ∧ zcr frames = 0 ∧
    risk_status (avg_pitch pitches) (zcr frames) = RiskStatus.low := by
  have h1 : avg_pitch pitches = PFloat.nan := by
    have hfil : pitches.filter (fun x => decide (0 < x)) = [] := by
      apply List.filter_eq_nil_iff.mpr
      intro a ha
      simp [hp a ha]
    simp [avg_pitch, hfil]
  have h2 : zcr frames = 0 := by
    apply meanQ_of_zeros
    intro v hv
    rcases List.mem_map.mp hv with ⟨f, hf, rfl⟩
    exact frame_zcr_of_zeros f (hz f hf)
  refine ⟨h1, h2, ?_⟩
  rw [h1, h2, risk_status_eq,
    if_pos (show pitchInBand PFloat.nan from trivial),
    if_neg (show ¬ (1 : ℚ) / 10 < 0 by norm_num)]

/-- Claim C2, witness for the amended theorem on a concrete silent buffer. -/
theorem C2_w :
    avg_pitch [0, 0] = PFloat.nan ∧ zcr [[0, 0], [0, 0]] = 0 ∧
    risk_status (avg_pitch [0, 0]) (zcr [[0, 0], [0, 0]]) = RiskStatus.low :=
  C2_amended [0, 0] (by simp) [[0, 0], [0, 0]] (by simp) (by simp)

/-- Claim C4, counterexample: no tremor scale factor c makes the code's
roughness value (the mean of the per-frame ZCR sequence) equal to c times
the variance of that sequence: on the two-frame input [[1, -1], [1, -1]] the
ZCR sequence is [1/2, 1/2], whose variance is 0, yet the code's value is
1/2. -/
theorem C4_cex :
    ¬ ∃ c : ℚ, ∀ frames : List (List ℚ), zcr frames = spec_roughness c frames := by
  rintro ⟨c, h⟩
  have h1 := h [[1, -1], [1, -1]]
  have e1 : zcr [[1, -1], [1, -1]] = 1 / 2 := by
    norm_num [zcr, zero_crossing_rate, frame_zcr, crossings, signbitQ, meanQ]
  have e2 : spec_roughness c [[1, -1], [1, -1]] = 0 := by
    have ev : varQ (zero_crossing_rate [[1, -1], [1, -1]]) = 0 := by
      norm_num [varQ, zero_crossing_rate, frame_zcr, crossings, signbitQ, meanQ]
    rw [spec_roughness, ev, mul_zero]
  rw [e1, e2] at h1
  norm_num at h1

/-- Claim C4, amended: the roughness value is the mean, not a scaled
variance, of the per-frame zero-crossing-rate sequence, and as such lies in
[0, 1]. -/
theorem C4_amended (frames : List (List ℚ)) (h : frames ≠ []) :
    zcr frames = meanQ (List.map frame_zcr frames) ∧
    0 ≤ zcr frames ∧ zcr frames ≤ 1 := by
  refine ⟨rfl, ?_, ?_⟩
  · apply meanQ_nonneg
    intro v hv
    rcases List.mem_map.mp hv with ⟨f, hf, rfl⟩
    exact frame_zcr_nonneg f
  · apply meanQ_le_one
    · intro hc
      exact h (List.map_eq_nil_iff.mp hc)
    · intro v hv
      rcases List.mem_map.mp hv with ⟨f, hf, rfl⟩
      exact frame_zcr_le_one f

/-- Claim C4, witness for the amended theorem on a concrete framed signal. -/
theorem C4_w :
    zcr [[1, -1]] = meanQ (List.map frame_zcr [[1, -1]]) ∧
    0 ≤ zcr [[1, -1]] ∧ zcr [[1, -1]] ≤ 1 :=
  C4_amended [[1, -1]] (List.cons_ne_nil _ _)

/-- Claim C6: the pipeline is a pure function of its input, so two runs on
the identical buffer (hence identical extracted frame data) produce equal
biomarkers and an equal risk status. -/
theorem C6_thm (pitches : List ℚ) (frames : List (List ℚ)) (scs : List ℚ)
    (r1 r2 : AnalysisResult)
    (h1 : r1 = pipeline_run pitches frames scs)
    (h2 : r2 = pipeline_run pitches frames scs) :
    r1.pitch = r2.pitch ∧ r1.zcrVal = r2.zcrVal ∧ r1.centroid = r2.centroid ∧
    r1.status = r2.status := by
  subst h1
  subst h2
  exact ⟨rfl, rfl, rfl, rfl⟩

/-- Claim C6, witness: two concrete runs on the same input agree. -/
theorem C6_w :
    (pipeline_run [150] [[1, -1]] [1000]).pitch =
      (pipeline_run [150] [[1, -1]] [1000]).pitch ∧
    (pipeline_run [150] [[1, -1]] [1000]).zcrVal =
      (pipeline_run [150] [[1, -1]] [1000]).zcrVal ∧
    (pipeline_run [150] [[1, -1]] [1000]).centroid =
      (pipeline_run [150] [[1, -1]] [1000]).centroid ∧
    (pipeline_run [150] [[1, -1]] [1000]).status =
      (pipeline_run [150] [[1, -1]] [1000]).status :=
  C6_thm [150] [[1, -1]] [1000]
    (pipeline_run [150] [[1, -1]] [1000])
    (pipeline_run [150] [[1, -1]] [1000]) rfl rfl

/-- Claim C7: for every nonempty framed signal the roughness value (the mean
per-frame ZCR) is greater than or equal to 0. -/
theorem C7_thm (frames : List (List ℚ)) (h : frames ≠ []) : 0 ≤ zcr frames := by
  apply meanQ_nonneg
  intro v hv
  rcases List.mem_map.mp hv with ⟨f, hf, rfl⟩
  exact frame_zcr_nonneg f

/-- Claim C7, witness on a concrete framed signal. -/
theorem C7_w : 0 ≤ zcr [[1, -1]] := C7_thm [[1, -1]] (List.cons_ne_nil _ _)

/-- Claim C8: loading caps the sample count at 30 seconds times the sample
rate, and an input strictly longer than the cap is truncated to exactly the
cap. -/
theorem C8_thm (orig : List ℚ) (sr : Nat) :
    (load_capped orig sr).length ≤ 30 * sr ∧
    (30 * sr < orig.length → (load_capped orig sr).length = 30 * sr) := by
  constructor
  · rw [load_capped, List.length_take]
    exact min_le_left _ _
  · intro h
    rw [load_capped, List.length_take]
    exact min_eq_left (Nat.le_of_lt h)

/-- Claim C8, witness: a 31-sample input at 1 Hz is cut to exactly 30
samples. -/
theorem C8_w : (load_capped (List.replicate 31 (0 : ℚ)) 1).length = 30 * 1 :=
  (C8_thm (List.replicate 31 (0 : ℚ)) 1).2 (by norm_num [List.length_replicate])

/-- Claim C9: any exception raised inside the analysis is caught by the
surrounding try/except and rendered as an error banner whose text contains
the underlying cause, as a normal return value of the handler (the host
process keeps running). -/
theorem C9_thm (e : String) :
    run_guarded (Except.error e) =
      Rendered.failure ("Error during analysis: " ++ e) := rfl

/-! Claim about the spectrogram rendering. -/

theorem clamp_max_zero (L : List ℚ) (hLne : L ≠ []) (h0 : (0 : ℚ) ∈ L)
    (hnp : ∀ v ∈ L, v ≤ 0) :
    listMax (L.map (fun v => max v (listMax L - topDbQ))) = 0 ∧
    ∀ w ∈ L.map (fun v => max v (listMax L - topDbQ)), w ≤ 0 := by
  have hmax0 : listMax L = 0 := le_antisymm (hnp _ (listMax_mem L hLne)) (mem_le_listMax h0)
  have hclamped : ∀ w ∈ L.map (fun v => max v (listMax L - topDbQ)), w ≤ 0 := by
    intro w hw
    rcases List.mem_map.mp hw with ⟨v, hv, rfl⟩
    rw [hmax0]
    exact max_le (hnp v hv) (by norm_num [topDbQ])
  have hzero_mem : (0 : ℚ) ∈ L.map (fun v => max v (listMax L - topDbQ)) := by
    apply List.mem_map.mpr
    refine ⟨0, h0, ?_⟩
    rw [hmax0]
    exact max_eq_left (by norm_num [topDbQ])
  have hmapne : L.map (fun v => max v (listMax L - topDbQ)) ≠ [] := by
    intro hc
    exact hLne (List.map_eq_nil_iff.mp hc)
  exact ⟨le_antisymm (hclamped _ (listMax_mem _ hmapne)) (mem_le_listMax hzero_mem),
    hclamped⟩

/-- Claim C5: for a nonempty mel-power matrix (nonnegative cells) and any
monotone dB map f (modelling x ↦ 10 log10 x), the rendered S_dB matrix is
referenced to its own maximum: its maximum cell value is exactly 0 and every
cell is ≤ 0. -/
theorem C5_thm (S : List ℚ) (f : ℚ → ℚ) (hS : S ≠ []) (hpos : ∀ s ∈ S, 0 ≤ s)
    (hf : ∀ a b : ℚ, a ≤ b → f a ≤ f b) :
    listMax (S_dB f S) = 0 ∧ ∀ v ∈ S_dB f S, v ≤ 0 := by
  have hMmem : listMax S ∈ S := listMax_mem S hS
  have habs : |listMax S| = listMax S := abs_of_nonneg (hpos _ hMmem)
  have hcell : ∀ s ∈ S, dbCell f (listMax S) s ≤ 0 := by
    intro s hs
    have hle : max aminQ s ≤ max aminQ |listMax S| := by
      rw [habs]
      exact max_le_max (le_refl aminQ) (mem_le_listMax hs)
    rw [dbCell, sub_nonpos]
    exact hf _ _ hle
  have hcellM : dbCell f (listMax S) (listMax S) = 0 := by
    rw [dbCell, habs, sub_self]
  have h0mem : (0 : ℚ) ∈ S.map (dbCell f (listMax S)) :=
    List.mem_map.mpr ⟨listMax S, hMmem, hcellM⟩
  have hnp : ∀ v ∈ S.map (dbCell f (listMax S)), v ≤ 0 := by
    intro v hv
    rcases List.mem_map.mp hv with ⟨s, hs, rfl⟩
    exact hcell s hs
  have hLne : S.map (dbCell f (listMax S)) ≠ [] := by
    intro hc
    exact hS (List.map_eq_nil_iff.mp hc)
  exact clamp_max_zero (S.map (dbCell f (listMax S))) hLne h0mem hnp

/-- Claim C5, witness: the concrete power matrix [4, 1, 0] with the identity
as the monotone dB map has a rendered maximum of exactly 0. -/
theorem C5_w : listMax (S_dB (fun x => x) [4, 1, 0]) = 0 :=
  (C5_thm [4, 1, 0] (fun x => x) (by simp) (by norm_num) (fun a b h => h)).1
